import Mathlib

/-!
# Exception tracking helper of workhorse (`internal/helper/exception/exception.go`)

A shallow embedding of `CleanHeaders` and `Track` together with the parts of
`net/http`, `net/textproto`, `raven-go` and `labkit` they call.

Go values are modelled as follows.
* The entries of a Go `map[string]T` are a function `String → Option T` (the
  entry stored under each key, `none` when the key is absent).  A `range` loop
  that writes every entry of one map into another is the right-biased union of
  the two functions.
* The maps of type `map[string]interface{}` (`log.Fields`, `raven.Extra`) are
  passed by reference and written in place by labkit and raven; they live in a
  heap, and a map value is a reference into it or nil.
* `http.Header` may be the nil map, reads of which succeed and writes to which
  panic; it is `Option` of such a function.
* A `*http.Request` that may be nil is `Option Request`; a function that mutates
  the request it is given returns the request as it is after the call.
* A panic is `Except.error`.
-/

namespace Workhorse

/-! ## net/textproto: canonical header keys -/

/-- Bytes `a` to `z`. -/
def isLowerByte (c : Char) : Bool := 97 ≤ c.toNat && c.toNat ≤ 122

/-- Bytes `A` to `Z`. -/
def isUpperByte (c : Char) : Bool := 65 ≤ c.toNat && c.toNat ≤ 90

/-- Bytes `0` to `9`. -/
def isDigitByte (c : Char) : Bool := 48 ≤ c.toNat && c.toNat ≤ 57

/-- The codes of the punctuation bytes that may occur in an HTTP token: the
exclamation mark, the number sign, dollar, percent, ampersand, apostrophe,
asterisk, plus, dash, dot, caret, underscore, grave accent, bar and tilde. -/
def tokenPunctuation : List Nat :=
  [33, 35, 36, 37, 38, 39, 42, 43, 45, 46, 94, 95, 96, 124, 126]

/-- Go `textproto.validHeaderFieldByte`: the byte is a token character. -/
def validHeaderFieldByte (c : Char) : Bool :=
  isLowerByte c || isUpperByte c || isDigitByte c || tokenPunctuation.contains c.toNat

/-- The constant `toLower` of `net/textproto`, the distance from `A` to `a`. -/
def toLower : Nat := 32

/-- One step of the canonicalisation loop: upper-case a letter that starts the
key or follows a dash, lower-case any other letter. -/
def canonicalByte (upper : Bool) (c : Char) : Char :=
  if upper && isLowerByte c then Char.ofNat (c.toNat - toLower)
  else if !upper && isUpperByte c then Char.ofNat (c.toNat + toLower)
  else c

/-- The second loop of Go `textproto.canonicalMIMEHeaderKey`. -/
def canonicalBytes (upper : Bool) : List Char → List Char
  | [] => []
  | c :: cs =>
    let c' := canonicalByte upper c
    c' :: canonicalBytes (c' == '-') cs

/-- Go `textproto.CanonicalMIMEHeaderKey`: a key made of token bytes only gets
its first letter and every letter after a dash in upper case and the other
letters in lower case; any other key is returned unchanged. -/
def CanonicalMIMEHeaderKey (s : String) : String :=
  if s.data.all validHeaderFieldByte then String.mk (canonicalBytes true s.data) else s

/-! ## net/http: headers and requests -/

/-- The entries of a non-nil `http.Header`, a `map[string][]string`. -/
abbrev HeaderMap := String → Option (List String)

/-- Go `http.Header`; `none` is the nil map. -/
abbrev Header := Option HeaderMap

/-- The map index expression `h[key]` with its presence flag: the values stored
under exactly `key`, `none` when there is no such entry. -/
def Header.lookup (h : Header) (key : String) : Option (List String) :=
  match h with
  | none => none
  | some m => m key

/-- Go `Header.Get`: the first value stored under the canonical form of `key`,
the empty string when there is none. -/
def Header.Get (h : Header) (key : String) : String :=
  match h with
  | none => ""
  | some m =>
    match m (CanonicalMIMEHeaderKey key) with
    | some (v :: _) => v
    | _ => ""

/-- Go `Header.Set`: replaces the values stored under the canonical form of
`key` by the single value `value`.  Assigning into the nil map panics. -/
def Header.Set (h : Header) (key value : String) : Except String Header :=
  match h with
  | none => .error "assignment to entry in nil map"
  | some m => .ok (some (fun k => if k = CanonicalMIMEHeaderKey key then some [value] else m k))

/-- The fields of `http.Request` read by this package and by `raven.NewHttp`.
`Path` is `r.URL.Path`, the URL being non-nil as in every request a server
hands to a handler; `TLS` tells whether `r.TLS` is non-nil; `correlationID` is
what `correlation.ExtractFromContext (r.Context ())` yields, the empty string
when the context carries none. -/
structure Request where
  Method : String
  Host : String
  Path : String
  TLS : Bool
  Header : Header
  correlationID : String

/-! ## CleanHeaders -/

/-- The header names whose values must not be reported. -/
def ravenHeaderBlacklist : List String :=
  ["Authorization", "Private-Token"]

/-- The body of the loop of `CleanHeaders` for one key. -/
def cleanHeader (h : Header) (key : String) : Except String Header :=
  if Header.Get h key ≠ "" then Header.Set h key "[redacted]" else .ok h

/-- Go `CleanHeaders`: redacts sensitive headers in the request. -/
def CleanHeaders (r : Option Request) : Except String (Option Request) :=
  match r with
  | none => .ok none
  | some req => do
    let h ← ravenHeaderBlacklist.foldlM cleanHeader req.Header
    pure (some { req with Header := h })

/-! ## labkit and raven-go -/

/-- Values of Go type `interface{}` as they are stored in `log.Fields` and
`raven.Extra`. -/
inductive Value
  | null
  | str (s : String)
  | int (n : Int)
  | bool (b : Bool)
  deriving DecidableEq, Repr

/-- The entries of a Go `map[string]interface{}`. -/
abbrev Entries := String → Option Value

/-- A reference to a map of the heap.  Go maps are reference types: the callee
writes into the very map the caller holds. -/
abbrev MapRef := Nat

/-- Go `log.Fields`, a `map[string]interface{}`; `none` is the nil map. -/
abbrev Fields := Option MapRef

/-- Go `raven.Extra`, a `map[string]interface{}`; `none` is the nil map. -/
abbrev Extra := Option MapRef

/-- The maps of type `map[string]interface{}` that exist at some moment: the
entries of each, and the reference the next map to be made will get.  The maps
made so far are those with a reference below `next`. -/
structure Heap where
  cells : MapRef → Entries
  next : MapRef

/-- The entries read through a map value; the nil map reads as empty. -/
def Heap.read (hp : Heap) (m : Option MapRef) : Entries :=
  match m with
  | none => fun _ => none
  | some ref => hp.cells ref

/-- The map value is nil or one of the maps made so far. -/
def Heap.allocated (hp : Heap) (m : Option MapRef) : Prop :=
  match m with
  | none => True
  | some ref => ref < hp.next

instance (hp : Heap) (m : Option MapRef) : Decidable (hp.allocated m) := by
  unfold Heap.allocated
  cases m <;> infer_instance

/-- A composite literal such as `raven.Extra{}`: makes a new, empty map. -/
def Heap.make (hp : Heap) : Heap × MapRef :=
  ({ cells := fun ref => if ref = hp.next then fun _ => none else hp.cells ref
     next := hp.next + 1 }, hp.next)

/-- The assignment `m[key] = v` into a non-nil map. -/
def Heap.assign (hp : Heap) (m : MapRef) (key : String) (v : Value) : Heap :=
  { hp with
    cells := fun ref =>
      if ref = m then fun k => if k = key then some v else hp.cells m k else hp.cells ref }

/-- The statement `extra[k] = v` executed for every entry `k, v` of `fields`. -/
def copyFields (hp : Heap) (extra : MapRef) (fields : Fields) : Heap :=
  { hp with
    cells := fun ref =>
      if ref = extra then
        fun k =>
          match hp.read fields k with
          | some v => some v
          | none => hp.cells extra k
      else hp.cells ref }

/-- The key under which labkit stores the correlation id. -/
def ravenSentryExtraKey : String := "gitlab.CorrelationID"

/-- The function `SetExtra` of labkit `correlation/raven`: a nil `extra` is
replaced by a new map, a non-empty correlation id found in the context is
written into it, and the map is returned. -/
def SetExtra (hp : Heap) (correlationID : String) (extra : Extra) : Heap × MapRef :=
  let (hp, extra) :=
    match extra with
    | none => hp.make
    | some m => (hp, m)
  if correlationID ≠ "" then
    (hp.assign extra ravenSentryExtraKey (Value.str correlationID), extra)
  else (hp, extra)

/-- What raven reads from package `runtime` when it builds a packet:
`runtime.Version ()`, `runtime.NumCPU ()`, `runtime.GOMAXPROCS (0)` and
`runtime.NumGoroutine ()`. -/
structure Runtime where
  Version : String
  NumCPU : Int
  GOMAXPROCS : Int
  NumGoroutine : Int

/-- The function `setExtraDefaults` of raven-go: four assignments into `extra`. -/
def setExtraDefaults (rt : Runtime) (hp : Heap) (extra : MapRef) : Heap :=
  let hp := hp.assign extra "runtime.Version" (Value.str rt.Version)
  let hp := hp.assign extra "runtime.NumCPU" (Value.int rt.NumCPU)
  let hp := hp.assign extra "runtime.GOMAXPROCS" (Value.int rt.GOMAXPROCS)
  hp.assign extra "runtime.NumGoroutine" (Value.int rt.NumGoroutine)

/-- The fields of `raven.Http` that are filled from the request line and the
headers; the query string and the remote address are not modelled. -/
structure Http where
  URL : String
  Method : String
  Cookies : String
  Headers : String → Option String

/-- The function `raven.NewHttp`: every header entry is reported with its values
joined by commas, and the entry `Host` is taken from the request. -/
def NewHttp (req : Request) : Http :=
  let proto :=
    if req.TLS || Header.Get req.Header "X-Forwarded-Proto" == "https" then "https" else "http"
  { Method := req.Method
    Cookies := Header.Get req.Header "Cookie"
    URL := proto ++ "://" ++ req.Host ++ req.Path
    Headers := fun k =>
      if k = "Host" then some req.Host
      else (Header.lookup req.Header k).map (String.intercalate ",") }

/-- The arguments `skip` and `context` of a call of `raven.NewStacktrace`; the
frames themselves belong to the run, not to the program text. -/
structure Stacktrace where
  skip : Nat
  context : Nat
  deriving DecidableEq, Repr

/-- The call `raven.NewStacktrace (skip, context, nil)`. -/
def NewStacktrace (skip context : Nat) : Stacktrace := { skip := skip, context := context }

/-- Go `raven.Exception`. -/
structure Exception where
  Stacktrace : Stacktrace
  Value : String
  Type_ : String
  deriving DecidableEq, Repr

/-- Go `raven.Interface`, restricted to the two implementations used here. -/
inductive Interface
  | http (h : Http)
  | exception (e : Exception)

/-- The fields of `raven.Packet` that `raven.NewPacketWithExtra` fills in. -/
structure Packet where
  Message : String
  Extra : Extra
  Interfaces : List Interface

/-- The function `raven.NewPacketWithExtra`: a nil `extra` is replaced by a new
map, the runtime defaults are written into the map, and the packet refers to
that map. -/
def NewPacketWithExtra (rt : Runtime) (hp : Heap) (message : String) (extra : Extra)
    (interfaces : List Interface) : Heap × Packet :=
  let (hp, extra) :=
    match extra with
    | none => hp.make
    | some m => (hp, m)
  let hp := setExtraDefaults rt hp extra
  (hp, { Message := message, Extra := some extra, Interfaces := interfaces })

/-- A non-nil Go `error`: the result of `err.Error ()` and the name of its
dynamic type, `reflect.TypeOf (err).String ()`. -/
structure GoError where
  message : String
  typeName : String
  deriving DecidableEq, Repr

/-! ## Track -/

/-- What a call of `Track` leaves behind: the request as it is after the call,
the heap of maps after the call, and the packet given to `client.Capture`. -/
structure TrackResult where
  request : Option Request
  heap : Heap
  captured : Packet

/-- The extra data of the submitted report: the entries of the map the packet
refers to. -/
def TrackResult.extra (res : TrackResult) : Entries := res.heap.read res.captured.Extra

/-- Go `Track`: captures and reports an exception.  `rt` is the state of the Go
runtime and `hp` the heap of maps at the call.  A nil `err` makes
`err.Error ()` panic. -/
def Track (rt : Runtime) (hp : Heap) (r : Option Request) (err : Option GoError)
    (fields : Fields) : Except String TrackResult := do
  let (hp, extra) := hp.make
  let hp := copyFields hp extra fields
  let interfaces : List Interface := []
  let (r, interfaces, hp, extra) ←
    match r with
    | none => pure (none, interfaces, hp, extra)
    | some req => do
      let r ← CleanHeaders (some req)
      match r with
      | none => throw "invalid memory address or nil pointer dereference"
      | some req =>
        let (hp, extra) := SetExtra hp req.correlationID (some extra)
        pure (some req, interfaces ++ [Interface.http (NewHttp req)], hp, extra)
  match err with
  | none => throw "invalid memory address or nil pointer dereference"
  | some e =>
    let exception : Exception :=
      { Stacktrace := NewStacktrace 2 3, Value := e.message, Type_ := e.typeName }
    let interfaces := interfaces ++ [Interface.exception exception]
    let (hp, packet) := NewPacketWithExtra rt hp e.message (some extra) interfaces
    pure { request := r, heap := hp, captured := packet }

/-! ## Definitions used in the statements and proofs -/

/-- ASCII lower-casing of one byte. -/
def foldByte (c : Char) : Char :=
  if isUpperByte c then Char.ofNat (c.toNat + toLower) else c

/-- The two names are equal up to the case of ASCII letters. -/
def EqualFold (a b : String) : Prop := a.data.map foldByte = b.data.map foldByte

instance (a b : String) : Decidable (EqualFold a b) := by
  unfold EqualFold; infer_instance

/-- The header collection after one pass of the loop body of `CleanHeaders`
that did not panic. -/
def redact (h : Header) (key : String) : Header :=
  match h with
  | none => none
  | some m =>
    if Header.Get (some m) key = "" then some m
    else some (fun k => if k = CanonicalMIMEHeaderKey key then some ["[redacted]"] else m k)

/-- A request with the single header `Authorization: Bearer abc123`. -/
def bearerRequest : Request :=
  { Method := "GET", Host := "gitlab.example.com", Path := "/api/v4/projects", TLS := true
    Header := some (fun k => if k = "Authorization" then some ["Bearer abc123"] else none)
    correlationID := "" }

/-- A request whose client sent an empty `Authorization` line followed by one
that carries a token. -/
def leakRequest : Request :=
  { Method := "GET", Host := "gitlab.example.com", Path := "/api/v4/projects", TLS := true
    Header := some (fun k => if k = "Authorization" then some ["", "Bearer abc123"] else none)
    correlationID := "" }

/-- A request with the single header `X-Custom: value`. -/
def customRequest : Request :=
  { Method := "GET", Host := "gitlab.example.com", Path := "/", TLS := false
    Header := some (fun k => if k = "X-Custom" then some ["value"] else none)
    correlationID := "abc" }

/-- A request with the header `Private-Token` present and empty. -/
def emptyTokenRequest : Request :=
  { Method := "GET", Host := "gitlab.example.com", Path := "/", TLS := false
    Header := some (fun k => if k = "Private-Token" then some [""] else none)
    correlationID := "" }

/-- An error value. -/
def someError : GoError := { message := "boom", typeName := "*errors.errorString" }

/-- The entries of a map after `setExtraDefaults` wrote into it. -/
def withDefaults (rt : Runtime) (e : Entries) : Entries :=
  fun k =>
    if k = "runtime.NumGoroutine" then some (Value.int rt.NumGoroutine)
    else if k = "runtime.GOMAXPROCS" then some (Value.int rt.GOMAXPROCS)
    else if k = "runtime.NumCPU" then some (Value.int rt.NumCPU)
    else if k = "runtime.Version" then some (Value.str rt.Version)
    else e k

/-- The entries of a map after `SetExtra` looked at it. -/
def withCorrelation (correlationID : String) (e : Entries) : Entries :=
  fun k =>
    if correlationID ≠ "" ∧ k = ravenSentryExtraKey then some (Value.str correlationID)
    else e k

/-- The keys that `setExtraDefaults` writes. -/
def runtimeKeys : List String :=
  ["runtime.Version", "runtime.NumCPU", "runtime.GOMAXPROCS", "runtime.NumGoroutine"]

/-- A state of the Go runtime. -/
def goRuntime : Runtime :=
  { Version := "go1.17.6", NumCPU := 8, GOMAXPROCS := 8, NumGoroutine := 12 }

/-- A heap whose only map, with reference 0, has the single entry
`user_id: 42`. -/
def userHeap : Heap :=
  { cells := fun ref =>
      if ref = 0 then fun k => if k = "user_id" then some (Value.int 42) else none
      else fun _ => none
    next := 1 }

/-- A heap whose only map, with reference 0, has the entries
`runtime.Version: "mine"` and `user_id: 42`. -/
def versionHeap : Heap :=
  { cells := fun ref =>
      if ref = 0 then
        fun k =>
          if k = "runtime.Version" then some (Value.str "mine")
          else if k = "user_id" then some (Value.int 42) else none
      else fun _ => none
    next := 1 }

/-! ## The loop of CleanHeaders in closed form -/

theorem cleanHeader_eq (h : Header) (key : String) : cleanHeader h key = .ok (redact h key) := by
  cases h with
  | none => simp [cleanHeader, redact, Header.Get]
  | some m =>
    by_cases hg : Header.Get (some m) key = ""
    · simp [cleanHeader, redact, hg]
    · simp [cleanHeader, redact, hg, Header.Set]

theorem CleanHeaders_some (req : Request) :
    CleanHeaders (some req) =
      .ok (some { req with
        Header := redact (redact req.Header "Authorization") "Private-Token" }) := by
  simp [CleanHeaders, ravenHeaderBlacklist, List.foldlM, cleanHeader_eq]
  rfl

/-! ## Canonical keys -/

theorem toNat_ofNat_of_lt {n : Nat} (h : n < 55296) : (Char.ofNat n).toNat = n := by
  rw [Char.ofNat, dif_pos (Or.inl h)]
  rfl

theorem char_eq_of_toNat_eq {c d : Char} (h : c.toNat = d.toNat) : c = d := by
  rw [← Char.ofNat_toNat c, ← Char.ofNat_toNat d, h]

theorem foldByte_toNat (c : Char) :
    (foldByte c).toNat = if 65 ≤ c.toNat ∧ c.toNat ≤ 90 then c.toNat + 32 else c.toNat := by
  unfold foldByte isUpperByte toLower
  by_cases h : 65 ≤ c.toNat ∧ c.toNat ≤ 90
  · have h' : c.toNat + 32 < 55296 := by omega
    simp [h, toNat_ofNat_of_lt h']
  · simp [h]

theorem canonicalByte_toNat (upper : Bool) (c : Char) :
    (canonicalByte upper c).toNat =
      if upper = true ∧ 97 ≤ c.toNat ∧ c.toNat ≤ 122 then c.toNat - 32
      else if upper = false ∧ 65 ≤ c.toNat ∧ c.toNat ≤ 90 then c.toNat + 32
      else c.toNat := by
  unfold canonicalByte isLowerByte isUpperByte toLower
  by_cases h1 : upper = true ∧ 97 ≤ c.toNat ∧ c.toNat ≤ 122
  · have h' : c.toNat - 32 < 55296 := by omega
    simp [h1, toNat_ofNat_of_lt h']
  · by_cases h2 : upper = false ∧ 65 ≤ c.toNat ∧ c.toNat ≤ 90
    · have h' : c.toNat + 32 < 55296 := by omega
      simp [h2, toNat_ofNat_of_lt h']
    · rw [if_neg h1, if_neg h2]
      cases upper
      · have h3 : ¬ (65 ≤ c.toNat ∧ c.toNat ≤ 90) := by simpa using h2
        simp [h3]
      · have h3 : ¬ (97 ≤ c.toNat ∧ c.toNat ≤ 122) := by simpa using h1
        simp [h3]

theorem canonical_code_congr (a b : Nat) (upper : Bool)
    (hn : (if 65 ≤ a ∧ a ≤ 90 then a + 32 else a) = (if 65 ≤ b ∧ b ≤ 90 then b + 32 else b)) :
    (if upper = true ∧ 97 ≤ a ∧ a ≤ 122 then a - 32
      else if upper = false ∧ 65 ≤ a ∧ a ≤ 90 then a + 32
      else a) =
    (if upper = true ∧ 97 ≤ b ∧ b ≤ 122 then b - 32
      else if upper = false ∧ 65 ≤ b ∧ b ≤ 90 then b + 32
      else b) := by
  cases upper
  · simp only [Bool.false_eq_true, false_and, true_and, if_false]
    split_ifs at hn ⊢ <;> omega
  · simp only [Bool.true_eq_false, false_and, true_and, if_false]
    split_ifs at hn ⊢ <;> omega

theorem canonicalByte_congr (upper : Bool) {c d : Char} (h : foldByte c = foldByte d) :
    canonicalByte upper c = canonicalByte upper d := by
  apply char_eq_of_toNat_eq
  have hn := congrArg Char.toNat h
  rw [foldByte_toNat, foldByte_toNat] at hn
  rw [canonicalByte_toNat, canonicalByte_toNat]
  exact canonical_code_congr _ _ upper hn

theorem validHeaderFieldByte_congr {c d : Char} (h : foldByte c = foldByte d) :
    validHeaderFieldByte c = validHeaderFieldByte d := by
  have hn := congrArg Char.toNat h
  rw [foldByte_toNat, foldByte_toNat] at hn
  rw [Bool.eq_iff_iff]
  simp only [validHeaderFieldByte, isLowerByte, isUpperByte, isDigitByte, tokenPunctuation,
    Bool.or_eq_true, Bool.and_eq_true, decide_eq_true_eq, List.contains_eq_any_beq,
    List.any_cons, List.any_nil, Bool.or_false, beq_iff_eq]
  split_ifs at hn <;> omega

theorem canonicalBytes_congr (upper : Bool) (a b : List Char)
    (h : a.map foldByte = b.map foldByte) : canonicalBytes upper a = canonicalBytes upper b := by
  induction a generalizing b upper with
  | nil =>
    cases b with
    | nil => rfl
    | cons d ds => simp at h
  | cons c cs ih =>
    cases b with
    | nil => simp at h
    | cons d ds =>
      simp only [List.map_cons, List.cons.injEq] at h
      simp only [canonicalBytes]
      rw [canonicalByte_congr upper h.1, ih _ ds h.2]

theorem all_validHeaderFieldByte_congr (a b : List Char)
    (h : a.map foldByte = b.map foldByte) :
    a.all validHeaderFieldByte = b.all validHeaderFieldByte := by
  induction a generalizing b with
  | nil =>
    cases b with
    | nil => rfl
    | cons d ds => simp at h
  | cons c cs ih =>
    cases b with
    | nil => simp at h
    | cons d ds =>
      simp only [List.map_cons, List.cons.injEq] at h
      simp only [List.all_cons]
      rw [validHeaderFieldByte_congr h.1, ih ds h.2]

/-- A name that equals a denylisted name up to letter case has that name as its
canonical form. -/
theorem canonical_of_EqualFold {n key : String} (hk : key ∈ ravenHeaderBlacklist)
    (h : EqualFold n key) : CanonicalMIMEHeaderKey n = key := by
  have hv : key.data.all validHeaderFieldByte = true ∧
      String.mk (canonicalBytes true key.data) = key := by
    simp only [ravenHeaderBlacklist, List.mem_cons, List.mem_singleton, List.mem_nil_iff,
      or_false] at hk
    rcases hk with rfl | rfl <;> decide
  unfold CanonicalMIMEHeaderKey
  rw [all_validHeaderFieldByte_congr _ _ h, canonicalBytes_congr true _ _ h, if_pos hv.1]
  exact hv.2

theorem canonical_of_mem {key : String} (hk : key ∈ ravenHeaderBlacklist) :
    CanonicalMIMEHeaderKey key = key := by
  simp only [ravenHeaderBlacklist, List.mem_cons, List.mem_singleton, List.mem_nil_iff,
    or_false] at hk
  rcases hk with rfl | rfl <;> decide

theorem Get_eq_lookup (h : Header) (n : String) :
    Header.Get h n =
      match Header.lookup h (CanonicalMIMEHeaderKey n) with
      | some (v :: _) => v
      | _ => "" := by
  cases h with
  | none => rfl
  | some m => rfl

theorem Get_congr (h : Header) {n key : String}
    (hn : CanonicalMIMEHeaderKey n = CanonicalMIMEHeaderKey key) :
    Header.Get h n = Header.Get h key := by
  rw [Get_eq_lookup, Get_eq_lookup, hn]

/-! ## One pass of the loop body -/

theorem redact_of_Get_empty (h : Header) (key : String) (hg : Header.Get h key = "") :
    redact h key = h := by
  cases h with
  | none => rfl
  | some m => simp [redact, hg]

theorem lookup_redact_other (h : Header) (key k : String)
    (hk : k ≠ CanonicalMIMEHeaderKey key) :
    Header.lookup (redact h key) k = Header.lookup h k := by
  cases h with
  | none => rfl
  | some m =>
    by_cases hg : Header.Get (some m) key = "" <;> simp [redact, hg, Header.lookup, hk]

theorem lookup_redact_same (h : Header) (key : String) (hg : Header.Get h key ≠ "") :
    Header.lookup (redact h key) (CanonicalMIMEHeaderKey key) = some ["[redacted]"] := by
  cases h with
  | none => simp [Header.Get] at hg
  | some m => simp [redact, hg, Header.lookup]

theorem Get_redact_same (h : Header) (key n : String)
    (hn : CanonicalMIMEHeaderKey n = CanonicalMIMEHeaderKey key)
    (hg : Header.Get h n ≠ "") : Header.Get (redact h key) n = "[redacted]" := by
  rw [Get_congr h hn] at hg
  rw [Get_eq_lookup, hn, lookup_redact_same h key hg]

theorem Get_redact_other (h : Header) (key n : String)
    (hn : CanonicalMIMEHeaderKey n ≠ CanonicalMIMEHeaderKey key) :
    Header.Get (redact h key) n = Header.Get h n := by
  rw [Get_eq_lookup, Get_eq_lookup, lookup_redact_other h key _ hn]

theorem isSome_lookup_redact (h : Header) (key k : String) :
    (Header.lookup (redact h key) k).isSome = (Header.lookup h k).isSome := by
  by_cases hk : k = CanonicalMIMEHeaderKey key
  · by_cases hg : Header.Get h key = ""
    · rw [redact_of_Get_empty h key hg]
    · subst hk
      rw [lookup_redact_same h key hg]
      rw [Get_eq_lookup] at hg
      cases hl : Header.lookup h (CanonicalMIMEHeaderKey key) with
      | none => simp [hl] at hg
      | some vs => rfl
  · rw [lookup_redact_other h key k hk]

theorem isSome_redact (h : Header) (key : String) : (redact h key).isSome = h.isSome := by
  cases h with
  | none => rfl
  | some m => by_cases hg : Header.Get (some m) key = "" <;> simp [redact, hg]

theorem redact_of_lookup_redacted (h : Header) (key : String)
    (hl : Header.lookup h (CanonicalMIMEHeaderKey key) = some ["[redacted]"]) :
    redact h key = h := by
  cases h with
  | none => rfl
  | some m =>
    simp only [Header.lookup] at hl
    by_cases hg : Header.Get (some m) key = ""
    · simp [redact, hg]
    · simp only [redact, hg, if_false]
      congr 1
      funext k
      by_cases hk : k = CanonicalMIMEHeaderKey key
      · simp [hk, hl]
      · simp [hk]

/-- Nothing is left to do for `key`: the lookup is empty or the entry holds the
marker already. -/
theorem redact_settled (h : Header) (key : String) :
    Header.Get (redact h key) key = "" ∨
      Header.lookup (redact h key) (CanonicalMIMEHeaderKey key) = some ["[redacted]"] := by
  by_cases hg : Header.Get h key = ""
  · left
    rw [redact_of_Get_empty h key hg]
    exact hg
  · right
    exact lookup_redact_same h key hg

theorem redact_eq_self_of_settled (h : Header) (key : String)
    (hs : Header.Get h key = "" ∨
      Header.lookup h (CanonicalMIMEHeaderKey key) = some ["[redacted]"]) :
    redact h key = h := by
  rcases hs with hg | hl
  · exact redact_of_Get_empty h key hg
  · exact redact_of_lookup_redacted h key hl

theorem redact_idem (h : Header) (key : String) : redact (redact h key) key = redact h key :=
  redact_eq_self_of_settled _ _ (redact_settled h key)

theorem redact_twice (h : Header) :
    redact (redact (redact (redact h "Authorization") "Private-Token") "Authorization")
      "Private-Token" = redact (redact h "Authorization") "Private-Token" := by
  have hne : CanonicalMIMEHeaderKey "Authorization" ≠ CanonicalMIMEHeaderKey "Private-Token" := by
    decide
  have hA : redact (redact (redact h "Authorization") "Private-Token") "Authorization" =
      redact (redact h "Authorization") "Private-Token" := by
    apply redact_eq_self_of_settled
    rcases redact_settled h "Authorization" with hg | hl
    · left
      rw [Get_redact_other _ _ _ hne]
      exact hg
    · right
      rw [lookup_redact_other _ _ _ hne]
      exact hl
  rw [hA, redact_idem]

/-! ## Both passes -/

theorem lookup_redact_both (h : Header) (key : String) (hk : key ∈ ravenHeaderBlacklist)
    (hg : Header.Get h key ≠ "") :
    Header.lookup (redact (redact h "Authorization") "Private-Token") key =
      some ["[redacted]"] := by
  have hc := canonical_of_mem hk
  simp only [ravenHeaderBlacklist, List.mem_cons, List.mem_singleton, List.mem_nil_iff,
    or_false] at hk
  rcases hk with rfl | rfl
  · rw [lookup_redact_other _ _ _ (by decide)]
    exact hc ▸ lookup_redact_same _ _ hg
  · have hg' : Header.Get (redact h "Authorization") "Private-Token" ≠ "" := by
      rw [Get_redact_other _ _ _ (by decide)]
      exact hg
    exact hc ▸ lookup_redact_same _ _ hg'

theorem Get_redact_both (h : Header) (n key : String) (hk : key ∈ ravenHeaderBlacklist)
    (hn : CanonicalMIMEHeaderKey n = key) (hg : Header.Get h n ≠ "") :
    Header.Get (redact (redact h "Authorization") "Private-Token") n = "[redacted]" := by
  have hc := canonical_of_mem hk
  have hg' : Header.Get h key ≠ "" := by
    rw [← Get_congr h (hn.trans hc.symm)]
    exact hg
  rw [Get_eq_lookup, hn, lookup_redact_both h key hk hg']

theorem redact_both_of_Get_empty (h : Header) (ha : Header.Get h "Authorization" = "")
    (hp : Header.Get h "Private-Token" = "") :
    redact (redact h "Authorization") "Private-Token" = h := by
  rw [redact_of_Get_empty _ _ ha, redact_of_Get_empty _ _ hp]

theorem Get_empty_of_lookup_none (h : Header) (key : String) (hk : key ∈ ravenHeaderBlacklist)
    (hl : Header.lookup h key = none) : Header.Get h key = "" := by
  rw [Get_eq_lookup, canonical_of_mem hk, hl]

/-! ## CleanHeaders -/

/-- C1: when the lookup of a denylisted header yields a non-empty value before
`CleanHeaders`, the call succeeds and afterwards the lookup of that header
yields exactly the marker `[redacted]`. -/
theorem CleanHeaders_redacts (req : Request) (key : String)
    (hk : key ∈ ravenHeaderBlacklist) (hg : Header.Get req.Header key ≠ "") :
    ∃ req', CleanHeaders (some req) = .ok (some req') ∧
      Header.Get req'.Header key = "[redacted]" :=
  ⟨_, CleanHeaders_some req, Get_redact_both req.Header key key hk (canonical_of_mem hk) hg⟩

/-- The scenario of C1: `Authorization: Bearer abc123` becomes `[redacted]`. -/
theorem CleanHeaders_redacts_bearer :
    Header.Get bearerRequest.Header "Authorization" = "Bearer abc123" ∧
      ∃ req', CleanHeaders (some bearerRequest) = .ok (some req') ∧
        Header.Get req'.Header "Authorization" = "[redacted]" :=
  ⟨by decide, CleanHeaders_redacts bearerRequest "Authorization" (by decide) (by decide)⟩

/-- C3: when neither `Authorization` nor `Private-Token` is present,
`CleanHeaders` leaves the request, and with it the whole header collection, as
it was. -/
theorem CleanHeaders_unchanged_of_absent (req : Request)
    (ha : Header.lookup req.Header "Authorization" = none)
    (hp : Header.lookup req.Header "Private-Token" = none) :
    CleanHeaders (some req) = .ok (some req) := by
  rw [CleanHeaders_some, redact_both_of_Get_empty _
    (Get_empty_of_lookup_none _ _ (by decide) ha) (Get_empty_of_lookup_none _ _ (by decide) hp)]

/-- The scenario of C3 on a request that carries `X-Custom: value` only. -/
theorem CleanHeaders_unchanged_custom :
    (Header.lookup customRequest.Header "Authorization" = none ∧
        Header.lookup customRequest.Header "Private-Token" = none) ∧
      CleanHeaders (some customRequest) = .ok (some customRequest) :=
  ⟨⟨by decide, by decide⟩,
    CleanHeaders_unchanged_of_absent customRequest (by decide) (by decide)⟩

/-- C4: `CleanHeaders` is idempotent: running it on its own result gives that
result again, for every request and for the nil request. -/
theorem CleanHeaders_idempotent (r : Option Request) :
    (CleanHeaders r >>= CleanHeaders) = CleanHeaders r := by
  cases r with
  | none => rfl
  | some req =>
    rw [CleanHeaders_some]
    show CleanHeaders (some _) = _
    rw [CleanHeaders_some]
    simp only [redact_twice]

/-- C5: on the nil request `CleanHeaders` returns at once, without a panic and
with nothing changed; and no request at all, be its header map nil or not, makes
it panic. -/
theorem CleanHeaders_total :
    CleanHeaders none = .ok none ∧
      ∀ r : Option Request, ∃ r', CleanHeaders r = .ok r' ∧ r'.isSome = r.isSome := by
  refine ⟨rfl, fun r => ?_⟩
  cases r with
  | none => exact ⟨none, rfl, rfl⟩
  | some req => exact ⟨_, CleanHeaders_some req, rfl⟩

/-- C7: a denylisted header that is present with the empty string as its value
is left as it is: still present, its value still the empty string, not replaced
by the marker. -/
theorem CleanHeaders_keeps_empty (req : Request) (key : String)
    (hk : key ∈ ravenHeaderBlacklist)
    (hl : Header.lookup req.Header key = some [""]) :
    ∃ req', CleanHeaders (some req) = .ok (some req') ∧
      Header.lookup req'.Header key = some [""] ∧
      Header.Get req'.Header key = "" ∧ Header.Get req'.Header key ≠ "[redacted]" := by
  have hc := canonical_of_mem hk
  have hkeep : ∀ h : Header, Header.lookup h key = some [""] →
      ∀ key', Header.lookup (redact h key') key = some [""] := by
    intro h hh key'
    by_cases hkk : key = CanonicalMIMEHeaderKey key'
    · have hg' : Header.Get h key' = "" := by rw [Get_eq_lookup, ← hkk, hh]
      rw [redact_of_Get_empty h key' hg']
      exact hh
    · rw [lookup_redact_other h key' key hkk]
      exact hh
  have hfin : Header.lookup (redact (redact req.Header "Authorization") "Private-Token") key =
      some [""] := hkeep _ (hkeep _ hl _) _
  have hget : Header.Get (redact (redact req.Header "Authorization") "Private-Token") key =
      "" := by rw [Get_eq_lookup, hc, hfin]
  refine ⟨_, CleanHeaders_some req, hfin, hget, ?_⟩
  show Header.Get (redact (redact req.Header "Authorization") "Private-Token") key ≠ _
  rw [hget]
  decide

/-- The case of C7 with `Private-Token` present and empty. -/
theorem CleanHeaders_keeps_empty_token :
    Header.lookup emptyTokenRequest.Header "Private-Token" = some [""] ∧
      ∃ req', CleanHeaders (some emptyTokenRequest) = .ok (some req') ∧
        Header.lookup req'.Header "Private-Token" = some [""] ∧
        Header.Get req'.Header "Private-Token" = "" ∧
        Header.Get req'.Header "Private-Token" ≠ "[redacted]" :=
  ⟨by decide,
    CleanHeaders_keeps_empty emptyTokenRequest "Private-Token" (by decide) (by decide)⟩

/-- C8: `CleanHeaders` changes nothing outside the denylist: every entry stored
under another name keeps its values, the names that have an entry are the same
as before (so no denylisted header is added), and the rest of the request is
untouched. -/
theorem CleanHeaders_frame (req : Request) :
    ∃ req', CleanHeaders (some req) = .ok (some req') ∧
      (∀ k, k ∉ ravenHeaderBlacklist →
        Header.lookup req'.Header k = Header.lookup req.Header k) ∧
      (∀ k, (Header.lookup req'.Header k).isSome = (Header.lookup req.Header k).isSome) ∧
      req'.Header.isSome = req.Header.isSome ∧
      req'.Method = req.Method ∧ req'.Host = req.Host ∧ req'.Path = req.Path ∧
      req'.TLS = req.TLS ∧ req'.correlationID = req.correlationID := by
  refine ⟨_, CleanHeaders_some req, ?_, ?_, ?_, rfl, rfl, rfl, rfl, rfl⟩
  · intro k hk
    have hk' : k ≠ "Authorization" ∧ k ≠ "Private-Token" := by
      simpa [ravenHeaderBlacklist] using hk
    show Header.lookup (redact (redact req.Header "Authorization") "Private-Token") k = _
    rw [lookup_redact_other _ _ _ (by rw [canonical_of_mem (by decide)]; exact hk'.2),
      lookup_redact_other _ _ _ (by rw [canonical_of_mem (by decide)]; exact hk'.1)]
  · intro k
    show (Header.lookup (redact (redact req.Header "Authorization") "Private-Token") k).isSome
      = _
    rw [isSome_lookup_redact, isSome_lookup_redact]
  · show (redact (redact req.Header "Authorization") "Private-Token").isSome = _
    rw [isSome_redact, isSome_redact]

/-- The scenario of C8: with `Private-Token` absent and `X-Custom: value`, the
header `X-Custom` is unchanged and no `Private-Token` header is added. -/
theorem CleanHeaders_frame_custom :
    ∃ req', CleanHeaders (some customRequest) = .ok (some req') ∧
      Header.lookup req'.Header "X-Custom" = some ["value"] ∧
      Header.lookup req'.Header "Private-Token" = none := by
  obtain ⟨req', h, hother, hsome, _⟩ := CleanHeaders_frame customRequest
  refine ⟨req', h, ?_, ?_⟩
  · rw [hother "X-Custom" (by decide)]
    decide
  · have := hsome "Private-Token"
    rw [show Header.lookup customRequest.Header "Private-Token" = none by decide] at this
    simpa using this

/-- C10: the lookup is case-insensitive on the header name: for every name that
equals a denylisted name up to letter case, a non-empty value held under that
name before `CleanHeaders` is `[redacted]` afterwards, the marker being the only
value stored under the denylisted name. -/
theorem CleanHeaders_redacts_fold (req : Request) (n key : String)
    (hk : key ∈ ravenHeaderBlacklist) (hf : EqualFold n key)
    (hg : Header.Get req.Header n ≠ "") :
    ∃ req', CleanHeaders (some req) = .ok (some req') ∧
      Header.Get req'.Header n = "[redacted]" ∧
      Header.lookup req'.Header key = some ["[redacted]"] := by
  have hn : CanonicalMIMEHeaderKey n = key := canonical_of_EqualFold hk hf
  have hg' : Header.Get req.Header key ≠ "" := by
    rw [← Get_congr req.Header (hn.trans (canonical_of_mem hk).symm)]
    exact hg
  exact ⟨_, CleanHeaders_some req, Get_redact_both req.Header n key hk hn hg,
    lookup_redact_both req.Header key hk hg'⟩

/-- The witness of C10: `authorization` looked up on a request that stores the
token under the canonical name. -/
theorem CleanHeaders_redacts_fold_lower :
    (EqualFold "authorization" "Authorization" ∧
        Header.Get bearerRequest.Header "authorization" = "Bearer abc123") ∧
      ∃ req', CleanHeaders (some bearerRequest) = .ok (some req') ∧
        Header.Get req'.Header "authorization" = "[redacted]" ∧
        Header.lookup req'.Header "Authorization" = some ["[redacted]"] :=
  ⟨⟨by decide, by decide⟩,
    CleanHeaders_redacts_fold bearerRequest "authorization" "Authorization" (by decide)
      (by decide) (by decide)⟩

/-- The same on the header map itself, for a map filled the way `net/http`
fills it, with every key in canonical form: a non-empty first value stored
under a name that equals a denylisted name up to letter case is replaced by
the marker. -/
theorem CleanHeaders_redacts_stored (req : Request) (n key v : String) (vs : List String)
    (hcanon : ∀ k, Header.lookup req.Header k ≠ none → CanonicalMIMEHeaderKey k = k)
    (hk : key ∈ ravenHeaderBlacklist) (hf : EqualFold n key)
    (hl : Header.lookup req.Header n = some (v :: vs)) (hv : v ≠ "") :
    ∃ req', CleanHeaders (some req) = .ok (some req') ∧
      Header.lookup req'.Header n = some ["[redacted]"] := by
  have hn : n = key := by
    rw [← hcanon n (by rw [hl]; simp)]
    exact canonical_of_EqualFold hk hf
  subst hn
  have hg : Header.Get req.Header n ≠ "" := by
    rw [Get_eq_lookup, canonical_of_mem hk, hl]
    exact hv
  exact ⟨_, CleanHeaders_some req, lookup_redact_both req.Header n hk hg⟩


/-! ## The heap of maps -/

theorem cells_make_of_lt (hp : Heap) (ref : MapRef) (h : ref < hp.next) :
    hp.make.1.cells ref = hp.cells ref := by
  have hne : ref ≠ hp.next := Nat.ne_of_lt h
  simp [Heap.make, hne]

theorem read_make_of_allocated (hp : Heap) (m : Option MapRef) (h : hp.allocated m) :
    hp.make.1.read m = hp.read m := by
  cases m with
  | none => rfl
  | some ref => exact cells_make_of_lt hp ref h

theorem cells_make_new (hp : Heap) : hp.make.1.cells hp.next = fun _ => none := by
  simp [Heap.make]

theorem cells_assign_of_ne (hp : Heap) (m ref : MapRef) (key : String) (v : Value)
    (h : ref ≠ m) : (hp.assign m key v).cells ref = hp.cells ref := by
  simp [Heap.assign, h]

theorem cells_assign_same (hp : Heap) (m : MapRef) (key : String) (v : Value) :
    (hp.assign m key v).cells m = fun k => if k = key then some v else hp.cells m k := by
  simp [Heap.assign]

theorem cells_copyFields_of_ne (hp : Heap) (extra ref : MapRef) (fields : Fields)
    (h : ref ≠ extra) : (copyFields hp extra fields).cells ref = hp.cells ref := by
  simp [copyFields, h]

theorem cells_copyFields_new (hp : Heap) (fields : Fields) (h : hp.allocated fields) :
    (copyFields hp.make.1 hp.next fields).cells hp.next = hp.read fields := by
  funext k
  simp only [copyFields, if_true, read_make_of_allocated hp fields h, cells_make_new]
  cases hp.read fields k <;> rfl

theorem cells_setExtraDefaults_of_ne (rt : Runtime) (hp : Heap) (m ref : MapRef)
    (h : ref ≠ m) : (setExtraDefaults rt hp m).cells ref = hp.cells ref := by
  simp [setExtraDefaults, cells_assign_of_ne _ _ _ _ _ h]

theorem cells_setExtraDefaults_same (rt : Runtime) (hp : Heap) (m : MapRef) :
    (setExtraDefaults rt hp m).cells m = withDefaults rt (hp.cells m) := by
  funext k
  simp [setExtraDefaults, cells_assign_same, withDefaults]

theorem SetExtra_some (hp : Heap) (correlationID : String) (m : MapRef) :
    SetExtra hp correlationID (some m) =
      (if correlationID ≠ "" then hp.assign m ravenSentryExtraKey (Value.str correlationID)
        else hp, m) := by
  unfold SetExtra
  by_cases h : correlationID = "" <;> simp [h]

theorem cells_SetExtra_of_ne (hp : Heap) (correlationID : String) (m ref : MapRef)
    (h : ref ≠ m) : (SetExtra hp correlationID (some m)).1.cells ref = hp.cells ref := by
  rw [SetExtra_some]
  by_cases hid : correlationID = ""
  · simp [hid]
  · simp [hid, cells_assign_of_ne _ _ _ _ _ h]

theorem cells_SetExtra_same (hp : Heap) (correlationID : String) (m : MapRef) :
    (SetExtra hp correlationID (some m)).1.cells m =
      withCorrelation correlationID (hp.cells m) := by
  rw [SetExtra_some]
  funext k
  by_cases hid : correlationID = ""
  · simp [hid, withCorrelation]
  · simp [hid, cells_assign_same, withCorrelation]

/-! ## Track -/

theorem Track_nil (rt : Runtime) (hp : Heap) (e : GoError) (fields : Fields) :
    Track rt hp none (some e) fields =
      .ok { request := none
            heap := setExtraDefaults rt (copyFields hp.make.1 hp.next fields) hp.next
            captured :=
              { Message := e.message, Extra := some hp.next
                Interfaces := [Interface.exception
                  { Stacktrace := NewStacktrace 2 3, Value := e.message,
                    Type_ := e.typeName }] } } :=
  rfl

theorem Track_some (rt : Runtime) (hp : Heap) (req : Request) (e : GoError) (fields : Fields) :
    Track rt hp (some req) (some e) fields =
      .ok { request := some { req with
              Header := redact (redact req.Header "Authorization") "Private-Token" }
            heap := setExtraDefaults rt
              (SetExtra (copyFields hp.make.1 hp.next fields) req.correlationID
                (some hp.next)).1 hp.next
            captured :=
              { Message := e.message, Extra := some hp.next
                Interfaces :=
                  [Interface.http (NewHttp { req with
                    Header := redact (redact req.Header "Authorization") "Private-Token" }),
                  Interface.exception
                    { Stacktrace := NewStacktrace 2 3, Value := e.message,
                      Type_ := e.typeName }] } } := by
  unfold Track
  simp only [CleanHeaders_some, SetExtra_some]
  rfl

theorem extra_of_nil (rt : Runtime) (hp : Heap) (fields : Fields) (hf : hp.allocated fields) :
    (setExtraDefaults rt (copyFields hp.make.1 hp.next fields) hp.next).cells hp.next =
      withDefaults rt (hp.read fields) := by
  rw [cells_setExtraDefaults_same, cells_copyFields_new hp fields hf]

theorem extra_of_some (rt : Runtime) (hp : Heap) (correlationID : String) (fields : Fields)
    (hf : hp.allocated fields) :
    (setExtraDefaults rt
      (SetExtra (copyFields hp.make.1 hp.next fields) correlationID (some hp.next)).1
      hp.next).cells hp.next =
      withDefaults rt (withCorrelation correlationID (hp.read fields)) := by
  rw [cells_setExtraDefaults_same, cells_SetExtra_same, cells_copyFields_new hp fields hf]

theorem cells_of_nil (rt : Runtime) (hp : Heap) (fields : Fields) (ref : MapRef)
    (h : ref < hp.next) :
    (setExtraDefaults rt (copyFields hp.make.1 hp.next fields) hp.next).cells ref =
      hp.cells ref := by
  have hne : ref ≠ hp.next := Nat.ne_of_lt h
  rw [cells_setExtraDefaults_of_ne _ _ _ _ hne, cells_copyFields_of_ne _ _ _ _ hne,
    cells_make_of_lt hp ref h]

theorem cells_of_some (rt : Runtime) (hp : Heap) (correlationID : String) (fields : Fields)
    (ref : MapRef) (h : ref < hp.next) :
    (setExtraDefaults rt
      (SetExtra (copyFields hp.make.1 hp.next fields) correlationID (some hp.next)).1
      hp.next).cells ref = hp.cells ref := by
  have hne : ref ≠ hp.next := Nat.ne_of_lt h
  rw [cells_setExtraDefaults_of_ne _ _ _ _ hne, cells_SetExtra_of_ne _ _ _ _ hne,
    cells_copyFields_of_ne _ _ _ _ hne, cells_make_of_lt hp ref h]

theorem read_of_cells (hp hp' : Heap) (fields : Fields) (hf : hp.allocated fields)
    (h : ∀ ref, ref < hp.next → hp'.cells ref = hp.cells ref) :
    hp'.read fields = hp.read fields := by
  cases fields with
  | none => rfl
  | some ref => exact h ref hf

theorem withDefaults_of_not_mem (rt : Runtime) (e : Entries) (k : String)
    (hk : k ∉ runtimeKeys) : withDefaults rt e k = e k := by
  have h : k ≠ "runtime.Version" ∧ k ≠ "runtime.NumCPU" ∧ k ≠ "runtime.GOMAXPROCS" ∧
      k ≠ "runtime.NumGoroutine" := by
    simpa [runtimeKeys] using hk
  simp [withDefaults, h.1, h.2.1, h.2.2.1, h.2.2.2]

theorem withDefaults_runtime (rt : Runtime) (e : Entries) :
    withDefaults rt e "runtime.Version" = some (Value.str rt.Version) ∧
      withDefaults rt e "runtime.NumCPU" = some (Value.int rt.NumCPU) ∧
      withDefaults rt e "runtime.GOMAXPROCS" = some (Value.int rt.GOMAXPROCS) ∧
      withDefaults rt e "runtime.NumGoroutine" = some (Value.int rt.NumGoroutine) := by
  refine ⟨?_, ?_, ?_, ?_⟩ <;> simp [withDefaults]

/-- What `Track` does by design: when the lookup of a denylisted header is
non-empty, the header map read by `raven.NewHttp` is the redacted one, and the
report carries the marker alone under that name. -/
theorem Track_reports_marker (rt : Runtime) (hp : Heap) (req : Request) (e : GoError)
    (fields : Fields) (key : String)
    (hk : key ∈ ravenHeaderBlacklist) (hg : Header.Get req.Header key ≠ "") :
    ∃ res req' h x, Track rt hp (some req) (some e) fields = .ok res ∧
      CleanHeaders (some req) = .ok (some req') ∧ res.request = some req' ∧
      res.captured.Interfaces = [Interface.http h, Interface.exception x] ∧
      h = NewHttp req' ∧ h.Headers key = some "[redacted]" := by
  have hl := lookup_redact_both req.Header key hk hg
  have hhost : key ≠ "Host" := by
    simp only [ravenHeaderBlacklist, List.mem_cons, List.mem_singleton, List.mem_nil_iff,
      or_false] at hk
    rcases hk with rfl | rfl <;> decide
  refine ⟨_, _, _, _, Track_some rt hp req e fields, CleanHeaders_some req, rfl, rfl, rfl, ?_⟩
  show (if key = "Host" then some req.Host else
    (Header.lookup (redact (redact req.Header "Authorization") "Private-Token") key).map
      (String.intercalate ",")) = _
  rw [if_neg hhost, hl]
  decide

/-- The scenario of the specification: `Track` on a request with an
`Authorization` header and the field `user_id: 42`. -/
theorem Track_bearer_scenario :
    ∃ res h x, Track goRuntime userHeap (some bearerRequest) (some someError) (some 0) =
        .ok res ∧
      res.captured.Interfaces = [Interface.http h, Interface.exception x] ∧
      h.Headers "Authorization" = some "[redacted]" ∧
      res.extra "user_id" = some (Value.int 42) := by
  obtain ⟨res, req', h, x, ht, _, _, hi, _, hh⟩ :=
    Track_reports_marker goRuntime userHeap bearerRequest someError (some 0) "Authorization"
      (by decide) (by decide)
  refine ⟨res, h, x, ht, hi, hh, ?_⟩
  rw [Track_some] at ht
  cases ht
  show (setExtraDefaults goRuntime
    (SetExtra (copyFields userHeap.make.1 userHeap.next (some 0)) bearerRequest.correlationID
      (some userHeap.next)).1 userHeap.next).cells userHeap.next "user_id" = _
  rw [extra_of_some goRuntime userHeap _ (some 0) (by decide)]
  decide

/-- C2 fails on the code: when the first `Authorization` value is empty,
`CleanHeaders` leaves the header alone, the request read by `raven.NewHttp`
still holds the token as second value, and the report carries it. -/
theorem Track_reports_second_value :
    Header.lookup leakRequest.Header "Authorization" = some ["", "Bearer abc123"] ∧
      ∃ res req' h x,
        Track goRuntime userHeap (some leakRequest) (some someError) (some 0) = .ok res ∧
        res.request = some req' ∧
        Header.lookup req'.Header "Authorization" = some ["", "Bearer abc123"] ∧
        res.captured.Interfaces = [Interface.http h, Interface.exception x] ∧
        h = NewHttp req' ∧ h.Headers "Authorization" = some ",Bearer abc123" := by
  have hga : Header.Get leakRequest.Header "Authorization" = "" := by decide
  have hgp : Header.Get leakRequest.Header "Private-Token" = "" := by decide
  have hr : redact (redact leakRequest.Header "Authorization") "Private-Token" =
      leakRequest.Header := by
    rw [redact_of_Get_empty _ _ hga, redact_of_Get_empty _ _ hgp]
  refine ⟨by decide, _, _, _, _, Track_some goRuntime userHeap leakRequest someError (some 0),
    rfl, ?_, rfl, rfl, ?_⟩
  · show Header.lookup (redact (redact leakRequest.Header "Authorization") "Private-Token")
      "Authorization" = _
    rw [hr]
    decide
  · show (if "Authorization" = "Host" then some leakRequest.Host else
      (Header.lookup (redact (redact leakRequest.Header "Authorization") "Private-Token")
        "Authorization").map (String.intercalate ",")) = _
    rw [hr]
    decide

/-- C6, as corrected: for every request, present or not, every non-nil error
and every field map of the caller, `Track` submits a report whose extra data
holds every caller field with its value, except under the key the correlation
provider writes and under the four keys raven writes.  The correlation id is
written after the caller fields and wins; the runtime values are written last
and win.  No map of the caller, the field map included, is modified. -/
theorem Track_extra (rt : Runtime) (hp : Heap) (r : Option Request) (e : GoError)
    (fields : Fields) (hf : hp.allocated fields) :
    ∃ res, Track rt hp r (some e) fields = .ok res ∧
      (∀ k v, hp.read fields k = some v → k ∉ runtimeKeys →
        ¬ (∃ req, r = some req ∧ req.correlationID ≠ "" ∧ k = ravenSentryExtraKey) →
        res.extra k = some v) ∧
      (∀ req, r = some req → req.correlationID ≠ "" →
        res.extra ravenSentryExtraKey = some (Value.str req.correlationID)) ∧
      (res.extra "runtime.Version" = some (Value.str rt.Version) ∧
        res.extra "runtime.NumCPU" = some (Value.int rt.NumCPU) ∧
        res.extra "runtime.GOMAXPROCS" = some (Value.int rt.GOMAXPROCS) ∧
        res.extra "runtime.NumGoroutine" = some (Value.int rt.NumGoroutine)) ∧
      (∀ ref, ref < hp.next → res.heap.cells ref = hp.cells ref) ∧
      res.heap.read fields = hp.read fields := by
  cases r with
  | none =>
    have hx := extra_of_nil rt hp fields hf
    have hc := cells_of_nil rt hp fields
    refine ⟨_, Track_nil rt hp e fields, ?_, ?_, ?_, hc, read_of_cells hp _ fields hf hc⟩
    · intro k v hkv hk _
      show (setExtraDefaults rt (copyFields hp.make.1 hp.next fields) hp.next).cells
        hp.next k = some v
      rw [hx, withDefaults_of_not_mem rt _ k hk]
      exact hkv
    · intro req hreq
      cases hreq
    · show (setExtraDefaults rt (copyFields hp.make.1 hp.next fields) hp.next).cells
          hp.next _ = _ ∧
        (setExtraDefaults rt (copyFields hp.make.1 hp.next fields) hp.next).cells
          hp.next _ = _ ∧
        (setExtraDefaults rt (copyFields hp.make.1 hp.next fields) hp.next).cells
          hp.next _ = _ ∧
        (setExtraDefaults rt (copyFields hp.make.1 hp.next fields) hp.next).cells
          hp.next _ = _
      rw [hx]
      exact withDefaults_runtime rt _
  | some req =>
    have hx := extra_of_some rt hp req.correlationID fields hf
    have hc := cells_of_some rt hp req.correlationID fields
    refine ⟨_, Track_some rt hp req e fields, ?_, ?_, ?_, hc, read_of_cells hp _ fields hf hc⟩
    · intro k v hkv hk hno
      show (setExtraDefaults rt
        (SetExtra (copyFields hp.make.1 hp.next fields) req.correlationID (some hp.next)).1
        hp.next).cells hp.next k = some v
      rw [hx, withDefaults_of_not_mem rt _ k hk]
      have hcor : ¬ (req.correlationID ≠ "" ∧ k = ravenSentryExtraKey) :=
        fun h => hno ⟨req, rfl, h.1, h.2⟩
      simp only [withCorrelation, if_neg hcor]
      exact hkv
    · intro req' hreq hid
      cases hreq
      show (setExtraDefaults rt
        (SetExtra (copyFields hp.make.1 hp.next fields) req.correlationID (some hp.next)).1
        hp.next).cells hp.next ravenSentryExtraKey = _
      rw [hx, withDefaults_of_not_mem rt _ _ (by decide)]
      simp [withCorrelation, hid]
    · show (setExtraDefaults rt
          (SetExtra (copyFields hp.make.1 hp.next fields) req.correlationID (some hp.next)).1
          hp.next).cells hp.next _ = _ ∧
        (setExtraDefaults rt
          (SetExtra (copyFields hp.make.1 hp.next fields) req.correlationID (some hp.next)).1
          hp.next).cells hp.next _ = _ ∧
        (setExtraDefaults rt
          (SetExtra (copyFields hp.make.1 hp.next fields) req.correlationID (some hp.next)).1
          hp.next).cells hp.next _ = _ ∧
        (setExtraDefaults rt
          (SetExtra (copyFields hp.make.1 hp.next fields) req.correlationID (some hp.next)).1
          hp.next).cells hp.next _ = _
      rw [hx]
      exact withDefaults_runtime rt _

/-- The case of C6 with the field `user_id: 42` and a request whose context
carries the correlation id `abc`. -/
theorem Track_extra_custom :
    userHeap.allocated (some 0) ∧
      ∃ res, Track goRuntime userHeap (some customRequest) (some someError) (some 0) =
          .ok res ∧
        res.extra "user_id" = some (Value.int 42) ∧
        res.extra "gitlab.CorrelationID" = some (Value.str "abc") ∧
        res.heap.read (some 0) "user_id" = some (Value.int 42) := by
  refine ⟨by decide, ?_⟩
  obtain ⟨res, ht, hkeep, hcor, _, _, hread⟩ :=
    Track_extra goRuntime userHeap (some customRequest) someError (some 0) (by decide)
  refine ⟨res, ht, ?_, ?_, ?_⟩
  · apply hkeep "user_id" (Value.int 42) (by decide) (by decide)
    rintro ⟨req, _, _, hk⟩
    revert hk
    decide
  · exact hcor customRequest rfl (by decide)
  · rw [hread]
    decide

/-- C6 as stated fails: a caller field under the key `runtime.Version` is
overwritten although the request is nil and the correlation provider writes
nothing: raven puts the version of the Go runtime there. -/
theorem Track_overwrites_runtime_field :
    versionHeap.allocated (some 0) ∧
      versionHeap.read (some 0) "runtime.Version" = some (Value.str "mine") ∧
      ∃ res, Track goRuntime versionHeap none (some someError) (some 0) = .ok res ∧
        res.extra "runtime.Version" = some (Value.str "go1.17.6") ∧
        res.extra "runtime.Version" ≠ some (Value.str "mine") := by
  refine ⟨by decide, by decide, _, Track_nil goRuntime versionHeap someError (some 0), ?_, ?_⟩
  · show (setExtraDefaults goRuntime (copyFields versionHeap.make.1 versionHeap.next (some 0))
      versionHeap.next).cells versionHeap.next "runtime.Version" = _
    rw [extra_of_nil goRuntime versionHeap (some 0) (by decide)]
    decide
  · show (setExtraDefaults goRuntime (copyFields versionHeap.make.1 versionHeap.next (some 0))
      versionHeap.next).cells versionHeap.next "runtime.Version" ≠ _
    rw [extra_of_nil goRuntime versionHeap (some 0) (by decide)]
    decide

/-- C9, as corrected: with the nil request and a non-nil error `Track` does not
panic; the report has no HTTP record, its only interface being the exception
record with the message of the error as value; its extra data equals the caller
fields on every key but the four that raven writes, which hold the runtime
values, and no correlation data is merged; its message is the message of the
error. -/
theorem Track_nil_request (rt : Runtime) (hp : Heap) (e : GoError) (fields : Fields)
    (hf : hp.allocated fields) :
    ∃ res, Track rt hp none (some e) fields = .ok res ∧
      res.request = none ∧
      res.captured.Interfaces =
        [Interface.exception
          { Stacktrace := NewStacktrace 2 3, Value := e.message, Type_ := e.typeName }] ∧
      (∀ h, Interface.http h ∉ res.captured.Interfaces) ∧
      (∀ k, k ∉ runtimeKeys → res.extra k = hp.read fields k) ∧
      (res.extra "runtime.Version" = some (Value.str rt.Version) ∧
        res.extra "runtime.NumCPU" = some (Value.int rt.NumCPU) ∧
        res.extra "runtime.GOMAXPROCS" = some (Value.int rt.GOMAXPROCS) ∧
        res.extra "runtime.NumGoroutine" = some (Value.int rt.NumGoroutine)) ∧
      res.captured.Message = e.message := by
  have hx := extra_of_nil rt hp fields hf
  refine ⟨_, Track_nil rt hp e fields, rfl, rfl, ?_, ?_, ?_, rfl⟩
  · intro h hmem
    simp at hmem
  · intro k hk
    show (setExtraDefaults rt (copyFields hp.make.1 hp.next fields) hp.next).cells
      hp.next k = _
    rw [hx, withDefaults_of_not_mem rt _ k hk]
  · show (setExtraDefaults rt (copyFields hp.make.1 hp.next fields) hp.next).cells
        hp.next _ = _ ∧
      (setExtraDefaults rt (copyFields hp.make.1 hp.next fields) hp.next).cells
        hp.next _ = _ ∧
      (setExtraDefaults rt (copyFields hp.make.1 hp.next fields) hp.next).cells
        hp.next _ = _ ∧
      (setExtraDefaults rt (copyFields hp.make.1 hp.next fields) hp.next).cells
        hp.next _ = _
    rw [hx]
    exact withDefaults_runtime rt _

/-- The case of C9 with the field `user_id: 42`. -/
theorem Track_nil_request_user :
    userHeap.allocated (some 0) ∧
      ∃ res, Track goRuntime userHeap none (some someError) (some 0) = .ok res ∧
        res.captured.Interfaces =
          [Interface.exception
            { Stacktrace := NewStacktrace 2 3, Value := "boom",
              Type_ := "*errors.errorString" }] ∧
        res.extra "user_id" = some (Value.int 42) ∧
        res.extra "gitlab.CorrelationID" = none ∧
        res.extra "runtime.NumCPU" = some (Value.int 8) ∧
        res.captured.Message = "boom" := by
  refine ⟨by decide, ?_⟩
  obtain ⟨res, ht, _, hi, _, hkeep, hrt, hm⟩ :=
    Track_nil_request goRuntime userHeap someError (some 0) (by decide)
  refine ⟨res, ht, hi, ?_, ?_, hrt.2.1, hm⟩
  · rw [hkeep "user_id" (by decide)]
    decide
  · rw [hkeep "gitlab.CorrelationID" (by decide)]
    decide

/-- C9 as stated fails: the extra data of the report is not the field map of
the caller; it holds `runtime.NumCPU`, which the caller did not pass. -/
theorem Track_nil_request_adds_runtime :
    userHeap.allocated (some 0) ∧
      userHeap.read (some 0) "runtime.NumCPU" = none ∧
      ∃ res, Track goRuntime userHeap none (some someError) (some 0) = .ok res ∧
        res.extra "runtime.NumCPU" = some (Value.int 8) ∧
        res.extra ≠ userHeap.read (some 0) := by
  have hx : (setExtraDefaults goRuntime (copyFields userHeap.make.1 userHeap.next (some 0))
      userHeap.next).cells userHeap.next "runtime.NumCPU" = some (Value.int 8) := by
    rw [extra_of_nil goRuntime userHeap (some 0) (by decide)]
    decide
  refine ⟨by decide, by decide, _, Track_nil goRuntime userHeap someError (some 0), hx, ?_⟩
  intro heq
  have h := congrFun heq "runtime.NumCPU"
  have h' : (setExtraDefaults goRuntime (copyFields userHeap.make.1 userHeap.next (some 0))
      userHeap.next).cells userHeap.next "runtime.NumCPU" =
      userHeap.read (some 0) "runtime.NumCPU" := h
  rw [hx] at h'
  revert h'
  decide

end Workhorse
